import Mathlib

/-!
Shallow embedding of the ArchiveBox CLI core (`archivebox/main.py`) for
verification of its natural-language specification.

The embedding covers:
* the `Link` record shape as used by `main.py`;
* the selection predicate of `list_links` (main.py 705-726);
* the removal predicate and control flow of `remove` (main.py 513-586);
* the control flow of `add` (main.py 451-511) and `update` (main.py 588-653)
  as trace-producing functions over an abstract per-link archiving outcome;
* the status dispatch of `list_folders` (main.py 728-758);
* the link-collection phase of `init` (main.py 288-349), i.e. the Python
  dict operations that merge the existing main index with the JSON index,
  the SQL index and the per-folder metadata scans.

Functions imported by `main.py` from sibling modules that are not part of
this source tree (`load_main_index`, `write_main_index`, `archive_link`,
`link_matches_filter`, the ten folder getters, `import_new_links`,
`links_after_timestamp`) are treated as parameters of the embedded
functions, except where a definition is explicitly marked as modelled from
the spec.  Python timestamps are compared via `float(link.timestamp)`; we
model them as rationals, which preserves the order comparisons the code
performs.  Exceptions and `SystemExit` are modelled by an explicit
`Outcome` type, and on-disk effects (index reads/writes, extractor
invocations, folder deletions) by explicit event traces / result fields.
-/

namespace ArchiveBox

/-- Link record (the fields of `index.schema.Link` that `main.py` reads:
`url`, `timestamp`, `title`, `tags`, `sources`).  `link_dir` is derived from
the timestamp and is identified with the link itself in deletion events. -/
structure Link where
  url : String
  timestamp : ℚ
  title : Option String
  tags : Option String
  sources : List String
  deriving DecidableEq

/-- Type of the abstract `link_matches_filter(link, patterns, filter_type)`
collaborator (imported by `main.py` from the index module). -/
abbrev Matcher := Link → List String → String → Bool

/-- Condition `after is not None and float(link.timestamp) < after`
(main.py 717 and 572). -/
def skip_after (after : Option ℚ) (l : Link) : Bool :=
  match after with
  | some a => decide (l.timestamp < a)
  | none => false

/-- Condition `before is not None and float(link.timestamp) > before`
(main.py 719 and 573). -/
def skip_before (before : Option ℚ) (l : Link) : Bool :=
  match before with
  | some b => decide (b < l.timestamp)
  | none => false

/-- Selection predicate of `list_links` (main.py 716-726): a link is yielded
iff it survives the `after` bound, then the `before` bound, and then — only
when the pattern list is non-empty — `link_matches_filter`. -/
def list_links_select (mf : Matcher) (patterns : List String) (ftype : String)
    (after before : Option ℚ) (l : Link) : Bool :=
  if skip_after after l then false
  else if skip_before before l then false
  else if patterns.isEmpty then true
  else mf l patterns ftype

/-- The links yielded by `list_links` over a loaded index (main.py 714-726). -/
def list_links_run (mf : Matcher) (patterns : List String) (ftype : String)
    (after before : Option ℚ) (index : List Link) : List Link :=
  index.filter (list_links_select mf patterns ftype after before)

/-- The `should_remove` predicate of `remove` (main.py 571-575):
`(after is not None and float(ts) < after) or (before is not None and
float(ts) > before) or link_matches_filter(link, patterns, type)`. -/
def should_remove (mf : Matcher) (patterns : List String) (ftype : String)
    (after before : Option ℚ) (l : Link) : Bool :=
  skip_after after l || skip_before before l || mf l patterns ftype

/-- Observable result of a `remove` run (main.py 546-586): the `SystemExit`
code if any, whether the full index was re-loaded for rewriting (main.py
569), the links whose `link_dir` was deleted by `shutil.rmtree` (main.py
579), and the `to_keep` payload of the final `write_main_index(...,
finished=True)` (main.py 583) when it happens. -/
structure RemoveResult where
  exitCode : Option Nat
  reloadedForRewrite : Bool
  deleted : List Link
  written : Option (List Link)
  deriving DecidableEq

/-- Control flow of `remove` after pattern validation (main.py 546-586):
list the matching links via `list_links`; if none match, exit with status 1;
otherwise re-load the index, delete the `link_dir` of every link with
`should_remove` when `delete` is set, and rewrite the index with the kept
links. -/
def remove_run (mf : Matcher) (patterns : List String) (ftype : String)
    (after before : Option ℚ) (delete : Bool) (index : List Link) : RemoveResult :=
  if (list_links_run mf patterns ftype after before index).isEmpty then
    { exitCode := some 1, reloadedForRewrite := false, deleted := [], written := none }
  else
    { exitCode := none
      reloadedForRewrite := true
      deleted := if delete then index.filter (fun l => should_remove mf patterns ftype after before l) else []
      written := some (index.filter (fun l => !(should_remove mf patterns ftype after before l))) }

/-- Outcome of one `archive_link` call, abstracting the extractor pipeline:
it returns normally, raises `KeyboardInterrupt`, or raises another error. -/
inductive ArchOutcome where
  | ok
  | interrupt
  | err
  deriving DecidableEq

/-- Result of the per-link archiving loop of `add`/`update`. -/
inductive LoopRes where
  | finished
  | interrupted
  | errored
  deriving DecidableEq

/-- Observable on-disk / pipeline events of an `add`/`update` run:
`load_main_index` calls, `write_main_index(links, finished)` calls, and
`archive_link` invocations. -/
inductive Event where
  | loadIndex : Event
  | writeIndex (links : List Link) (finished : Bool) : Event
  | archive (link : Link) : Event
  deriving DecidableEq

/-- Errors that propagate out of a run uncaught. -/
inductive PyErr where
  | valueError
  | other
  deriving DecidableEq

/-- Final outcome of an `add`/`update` run: normal return value,
`SystemExit(code)`, or an uncaught exception. -/
inductive Outcome where
  | ret (links : List Link)
  | exit (code : Nat)
  | raised (e : PyErr)
  deriving DecidableEq

/-- The archiving loop (main.py 494-504 and 636-646): links are processed in
order; the first `KeyboardInterrupt` or other error stops the loop. -/
def run_loop (f : Link → ArchOutcome) : List Link → List Event × LoopRes
  | [] => ([], LoopRes.finished)
  | l :: ls =>
    match f l with
    | ArchOutcome.ok =>
      match run_loop f ls with
      | (es, r) => (Event.archive l :: es, r)
    | ArchOutcome.interrupt => ([Event.archive l], LoopRes.interrupted)
    | ArchOutcome.err => ([Event.archive l], LoopRes.errored)

/-- The `all_links` of `add` after step 1 (main.py 479-481): the merged link
set when an import path was given, else the loaded index.  The result of
`import_new_links` is the abstract parameter `merged`. -/
def add_all_links (index merged : List Link) (hasImport : Bool) : List Link :=
  if hasImport then merged else index

/-- The `links` handed to the archiving loop by `add` (main.py 490):
`all_links if update_all else new_links`; `new_links` stays `[]` when
no import path was given. -/
def add_selected (index merged newLinks : List Link) (hasImport updateAll : Bool) : List Link :=
  if updateAll then add_all_links index merged hasImport
  else if hasImport then newLinks else []

/-- Control flow of `add` after source validation (main.py 475-511):
load the index, merge, write the index, optionally stop (`index_only`), run
the archiving loop, and on completion re-load the index and write it with
`finished=True`.  `KeyboardInterrupt` becomes `SystemExit(0)` (main.py
498-500); other errors re-raise (main.py 502-504). -/
def add_run (index merged newLinks reloaded : List Link)
    (hasImport indexOnly updateAll : Bool) (f : Link → ArchOutcome) : List Event × Outcome :=
  if indexOnly then
    ([Event.loadIndex, Event.writeIndex (add_all_links index merged hasImport) false],
     Outcome.ret (add_all_links index merged hasImport))
  else
    match run_loop f (add_selected index merged newLinks hasImport updateAll) with
    | (es, LoopRes.interrupted) =>
      ([Event.loadIndex, Event.writeIndex (add_all_links index merged hasImport) false] ++ es,
       Outcome.exit 0)
    | (es, LoopRes.errored) =>
      ([Event.loadIndex, Event.writeIndex (add_all_links index merged hasImport) false] ++ es,
       Outcome.raised PyErr.other)
    | (es, LoopRes.finished) =>
      ([Event.loadIndex, Event.writeIndex (add_all_links index merged hasImport) false] ++ es
        ++ [Event.loadIndex, Event.writeIndex reloaded true],
       Outcome.ret reloaded)

/-- The ten folder statuses recognized by `list_folders` (main.py 735-756). -/
def recognized_statuses : List String :=
  ["indexed", "archived", "unarchived", "present", "valid", "invalid",
   "duplicate", "orphaned", "corrupted", "unrecognized"]

/-- Status dispatch of `list_folders` (main.py 728-758): a recognized status
calls the corresponding folder getter (all ten getters are abstracted by the
parameter `gf`); any other status — including `None`, which matches no
branch — raises `ValueError('Status not recognized.')`. -/
def list_folders (gf : String → List Link → List (Option Link))
    (links : List Link) (status : Option String) : Except PyErr (List (Option Link)) :=
  match status with
  | some s =>
    if recognized_statuses.contains s then Except.ok (gf s links)
    else Except.error PyErr.valueError
  | none => Except.error PyErr.valueError

/-- Modelled from the spec: `links_after_timestamp` is imported by `main.py`
from the index module, which is not part of this source tree.  Spec section
4.5: "`resume` skips every link whose timestamp is less than the given
value". -/
def links_after_timestamp (links : List Link) (resume : Option ℚ) : List Link :=
  match resume with
  | none => links
  | some r => links.filter (fun l => decide (r ≤ l.timestamp))

/-- Events of `update` up to and including the forcing of
`list(matching_links)` (main.py 609-621): the step-1 index load, the step-2
rewrite of the loaded index, and the index load performed by the
`list_links` generator when it is forced. -/
def update_preamble (index : List Link) : List Event :=
  [Event.loadIndex, Event.writeIndex index false, Event.loadIndex]

/-- The links handed to the archiving loop by `update` (main.py 626-637):
the non-`None` values of the folder map when `only_new` is false, else the
never-populated `new_links = []`, passed through `links_after_timestamp`.
Empty when `list_folders` raises instead. -/
def update_pipeline_links (index : List Link) (mf : Matcher) (patterns : List String)
    (ftype : String) (after before : Option ℚ) (status : Option String)
    (onlyNew : Bool) (resume : Option ℚ)
    (gf : String → List Link → List (Option Link)) : List Link :=
  match list_folders gf (list_links_run mf patterns ftype after before index) status with
  | Except.error _ => []
  | Except.ok folders =>
    links_after_timestamp (if onlyNew then [] else folders.filterMap id) resume

/-- Control flow of `update` (main.py 605-653): load the index, rewrite it,
filter via `list_links`, dispatch on `status` via `list_folders` (which may
raise), optionally stop (`index_only`), run the archiving loop over
`new_links if only_new else all_links` after the `resume` cut, and on
completion re-load the index and write it with `finished=True`. -/
def update_run (index : List Link) (mf : Matcher) (patterns : List String)
    (ftype : String) (after before : Option ℚ) (status : Option String)
    (onlyNew indexOnly : Bool) (resume : Option ℚ)
    (gf : String → List Link → List (Option Link))
    (f : Link → ArchOutcome) (reloaded : List Link) : List Event × Outcome :=
  match list_folders gf (list_links_run mf patterns ftype after before index) status with
  | Except.error e => (update_preamble index, Outcome.raised e)
  | Except.ok folders =>
    if indexOnly then (update_preamble index, Outcome.ret (folders.filterMap id))
    else
      match run_loop f (links_after_timestamp (if onlyNew then [] else folders.filterMap id) resume) with
      | (es, LoopRes.interrupted) => (update_preamble index ++ es, Outcome.exit 0)
      | (es, LoopRes.errored) => (update_preamble index ++ es, Outcome.raised PyErr.other)
      | (es, LoopRes.finished) =>
        (update_preamble index ++ es ++ [Event.loadIndex, Event.writeIndex reloaded true],
         Outcome.ret reloaded)

/-- Event classifier: canonical index writes. -/
def is_write : Event → Bool
  | Event.writeIndex _ _ => true
  | _ => false

/-- Event classifier: `archive_link` invocations. -/
def is_archive : Event → Bool
  | Event.archive _ => true
  | _ => false

/-- The `write_main_index` calls of a trace, in order. -/
def writes (tr : List Event) : List Event :=
  tr.filter is_write

/-- Python dict with string keys and Link values, as an insertion-ordered
association list (`init` builds `all_links: Dict[str, Link]`). -/
abbrev Dict := List (String × Link)

/-- Python `d[k]` / `k in d` lookup. -/
def dlookup (k : String) : Dict → Option Link
  | [] => none
  | p :: m => if p.1 = k then some p.2 else dlookup k m

/-- Python `d[k] = v`: replace in place if the key exists, else append. -/
def dinsert (k : String) (v : Link) : Dict → Dict
  | [] => [(k, v)]
  | p :: m => if p.1 = k then (k, v) :: m else p :: dinsert k v m

/-- Python `d.update(adds)`: insert the pairs of `adds` in order. -/
def dupdate (m : Dict) (adds : Dict) : Dict :=
  adds.foldl (fun acc p => dinsert p.1 p.2 acc) m

/-- Python dict comprehension `{link.url: link for link in ls}`. -/
def dict_of (ls : List Link) : Dict :=
  dupdate [] (ls.map (fun l => (l.url, l)))

/-- Keys of a dict, in order. -/
def dkeys (m : Dict) : List String :=
  m.map Prod.fst

/-- Python `d.values()`, in order. -/
def dvalues (m : Dict) : List Link :=
  m.map Prod.snd

/-- First collection stage of `init` (main.py 306-313): `all_links` after
merging in the links of the JSON index whose URL is not already a key
(`orphaned_json_links`). -/
def collect_stage1 (ex json : List Link) : Dict :=
  dupdate (dict_of ex)
    (dict_of (json.filter (fun l => (dlookup l.url (dict_of ex)).isNone)))

/-- Second collection stage of `init` (main.py 316-323): the previous stage
after merging in the links of the SQL index whose URL is still absent
(`orphaned_sql_links`). -/
def collect_stage2 (ex json sql : List Link) : Dict :=
  dupdate (collect_stage1 ex json)
    (dict_of (sql.filter (fun l => (dlookup l.url (collect_stage1 ex json)).isNone)))

/-- The link-collection phase of `init` (main.py 290-333): start from the
existing main index, then merge in — from the JSON index, the SQL index and
the per-folder metadata files, in that order — only those links whose URL is
not already a key of `all_links` (main.py 326-333, `orphaned_data_dir_links`,
for the last stage).  The later steps of `init` (invalid-folder reporting)
do not modify `all_links`. -/
def collect_dict (ex json sql dd : List Link) : Dict :=
  dupdate (collect_stage2 ex json sql)
    (dict_of (dd.filter (fun l => (dlookup l.url (collect_stage2 ex json sql)).isNone)))

/-- The link list written by `init` (main.py 349):
`list(all_links.values())`. -/
def collect_links (ex json sql dd : List Link) : List Link :=
  dvalues (collect_dict ex json sql dd)

/-- Modelled from the spec: the `exact` mode of `link_matches_filter`
(imported by `main.py` from the index module, not part of this source
tree).  Spec section 4.3: "`exact` (URL equality)", "Multiple patterns are
OR-ed".  Used only to instantiate the abstract matcher on concrete inputs. -/
def mf_exact : Matcher :=
  fun l patterns _ => patterns.contains l.url

/-- Concrete link inside the `after=10` bound and matching `gone.com`. -/
def linkA : Link :=
  { url := "gone.com", timestamp := 15, title := none, tags := none, sources := [] }

/-- Concrete link outside the `after=10` bound and matching no pattern. -/
def linkB : Link :=
  { url := "keep.com", timestamp := 5, title := none, tags := none, sources := [] }

/-- Concrete existing-index record for `a.com` with one source and no title. -/
def exA : Link :=
  { url := "a.com", timestamp := 100, title := none, tags := none, sources := ["s1"] }

/-- Concrete incoming record for the same `a.com` with a new source, a title
and tags. -/
def inA : Link :=
  { url := "a.com", timestamp := 100, title := some "T", tags := some "t1", sources := ["s2"] }

/-- Concrete JSON-index record for `b.com`, a url absent from the existing
index. -/
def jB : Link :=
  { url := "b.com", timestamp := 200, title := some "JB", tags := none, sources := ["json"] }

/-- Concrete SQL-index record for the same `b.com`. -/
def sB : Link :=
  { url := "b.com", timestamp := 201, title := some "SB", tags := none, sources := ["sql"] }

/-- Concrete per-folder metadata record for the same `b.com`. -/
def dB : Link :=
  { url := "b.com", timestamp := 202, title := some "DB", tags := none, sources := ["dd"] }

/-- Archiving collaborator that always succeeds. -/
def f_ok : Link → ArchOutcome := fun _ => ArchOutcome.ok

/-- Archiving collaborator that raises `KeyboardInterrupt` on every link. -/
def f_int : Link → ArchOutcome := fun _ => ArchOutcome.interrupt

/-- Archiving collaborator that raises an ordinary error on every link. -/
def f_err : Link → ArchOutcome := fun _ => ArchOutcome.err

/-- Folder getter that returns no folders. -/
def gf_none : String → List Link → List (Option Link) := fun _ _ => []

/-- Folder getter that returns every given link as a folder value. -/
def gf_id : String → List Link → List (Option Link) := fun _ links => links.map some

/-- The `after` bound skips a link iff the bound is present and strictly
above the link's timestamp. -/
theorem skip_after_true_iff (after : Option ℚ) (l : Link) :
    skip_after after l = true ↔ ∃ a, after = some a ∧ l.timestamp < a := by
  cases after <;> simp [skip_after]

/-- The `after` bound keeps a link iff the bound, when present, is at most
the link's timestamp. -/
theorem skip_after_false_iff (after : Option ℚ) (l : Link) :
    skip_after after l = false ↔ ∀ a, after = some a → a ≤ l.timestamp := by
  cases after <;> simp [skip_after, not_lt]

/-- The `before` bound skips a link iff the bound is present and strictly
below the link's timestamp. -/
theorem skip_before_true_iff (before : Option ℚ) (l : Link) :
    skip_before before l = true ↔ ∃ b, before = some b ∧ b < l.timestamp := by
  cases before <;> simp [skip_before]

/-- The `before` bound keeps a link iff the link's timestamp, when the bound
is present, is at most the bound. -/
theorem skip_before_false_iff (before : Option ℚ) (l : Link) :
    skip_before before l = false ↔ ∀ b, before = some b → l.timestamp ≤ b := by
  cases before <;> simp [skip_before, not_lt]

/-- Characterization of the `list_links` selection predicate. -/
theorem list_links_select_true_iff (mf : Matcher) (patterns : List String)
    (ftype : String) (after before : Option ℚ) (l : Link) :
    list_links_select mf patterns ftype after before l = true ↔
      ((∀ a, after = some a → a ≤ l.timestamp) ∧
       (∀ b, before = some b → l.timestamp ≤ b) ∧
       (patterns = [] ∨ mf l patterns ftype = true)) := by
  unfold list_links_select
  split_ifs with h1 h2 h3
  · rw [skip_after_true_iff] at h1
    obtain ⟨a, ha, hlt⟩ := h1
    constructor
    · intro h; exact absurd h (by simp)
    · rintro ⟨hfa, -, -⟩
      exact absurd (hfa a ha) (not_le.mpr hlt)
  · rw [skip_before_true_iff] at h2
    obtain ⟨b, hb, hlt⟩ := h2
    constructor
    · intro h; exact absurd h (by simp)
    · rintro ⟨-, hfb, -⟩
      exact absurd (hfb b hb) (not_le.mpr hlt)
  · rw [List.isEmpty_iff] at h3
    subst h3
    constructor
    · intro _
      exact ⟨(skip_after_false_iff after l).mp (by simpa using h1),
             (skip_before_false_iff before l).mp (by simpa using h2), Or.inl rfl⟩
    · intro _
      rfl
  · rw [List.isEmpty_iff] at h3
    constructor
    · intro h
      refine ⟨?_, ?_, Or.inr h⟩
      · exact (skip_after_false_iff after l).mp (by simpa using h1)
      · exact (skip_before_false_iff before l).mp (by simpa using h2)
    · rintro ⟨-, -, h | h⟩
      · exact absurd h h3
      · exact h

/-- C4: `list_links` yields a link iff (`after` is absent or `after ≤
timestamp`) and (`before` is absent or `timestamp ≤ before`) and (patterns
are absent or some pattern matches); both bounds are inclusive, and they are
tested before pattern matching — when a bound rejects the link, the matcher
is irrelevant to the result. -/
theorem c4_list_links_selection (mf : Matcher) (patterns : List String)
    (ftype : String) (after before : Option ℚ) (index : List Link) (l : Link) :
    (l ∈ list_links_run mf patterns ftype after before index ↔
      l ∈ index ∧ (∀ a, after = some a → a ≤ l.timestamp) ∧
        (∀ b, before = some b → l.timestamp ≤ b) ∧
        (patterns = [] ∨ mf l patterns ftype = true)) ∧
    (∀ mf' : Matcher, (skip_after after l || skip_before before l) = true →
      list_links_select mf patterns ftype after before l
        = list_links_select mf' patterns ftype after before l) := by
  constructor
  · rw [list_links_run, List.mem_filter, list_links_select_true_iff]
  · intro mf' h
    rcases Bool.or_eq_true_iff.mp h with h | h
    · simp [list_links_select, h]
    · cases hA : skip_after after l <;> simp [list_links_select, hA, h]

/-- Witness for C4 at concrete inputs: `linkB` (timestamp 5) is rejected by
the bound `after = 10`, so any two matchers give the same selection. -/
theorem c4_list_links_selection_witness :
    list_links_select mf_exact ["gone.com"] "exact" (some 10) none linkB
      = list_links_select (fun _ _ _ => true) ["gone.com"] "exact" (some 10) none linkB :=
  (c4_list_links_selection mf_exact ["gone.com"] "exact" (some 10) none [linkA, linkB] linkB).2
    (fun _ _ _ => true) (by decide)

/-- C9: a `remove` call whose filter selection matches no link exits with
status 1 without re-loading the full index for rewriting, without writing
any index, and without deleting any folder. -/
theorem c9_empty_selection (mf : Matcher) (patterns : List String) (ftype : String)
    (after before : Option ℚ) (delete : Bool) (index : List Link)
    (h : list_links_run mf patterns ftype after before index = []) :
    remove_run mf patterns ftype after before delete index
      = { exitCode := some 1, reloadedForRewrite := false, deleted := [], written := none } := by
  simp [remove_run, h]

/-- Witness for C9: removing pattern `gone.com` bounded by `after = 10` from
an index holding only `linkB` selects nothing and leaves everything as is. -/
theorem c9_empty_selection_witness :
    list_links_run mf_exact ["gone.com"] "exact" (some 10) none [linkB] = [] ∧
    remove_run mf_exact ["gone.com"] "exact" (some 10) none true [linkB]
      = { exitCode := some 1, reloadedForRewrite := false, deleted := [], written := none } :=
  ⟨by decide,
   c9_empty_selection mf_exact ["gone.com"] "exact" (some 10) none true [linkB] (by decide)⟩

/-- C8 (amended): a `link_dir` is deleted iff `delete` is set AND the link
satisfies `should_remove` AND the filter selection is non-empty (on the
empty-selection path `remove` exits before its deletion loop); in
particular, with `delete` false nothing is ever deleted. -/
theorem c8_delete_iff (mf : Matcher) (patterns : List String) (ftype : String)
    (after before : Option ℚ) (delete : Bool) (index : List Link) (l : Link) :
    l ∈ (remove_run mf patterns ftype after before delete index).deleted ↔
      (list_links_run mf patterns ftype after before index ≠ [] ∧ delete = true ∧
        l ∈ index ∧ should_remove mf patterns ftype after before l = true) := by
  cases hsel : list_links_run mf patterns ftype after before index with
  | nil =>
    unfold remove_run
    rw [hsel]
    simp
  | cons a as =>
    unfold remove_run
    rw [hsel]
    cases delete <;> simp [List.mem_filter]

/-- C8 (counterexample): with `delete = true` and a link (`linkB`) that
satisfies `should_remove` (it lies outside the `after` bound), nothing is
deleted, because the selection shown to the user is empty and `remove`
exits with status 1 first — refuting the claim's unconditional iff. -/
theorem c8_predicate_without_deletion :
    should_remove mf_exact ["gone.com"] "exact" (some 10) none linkB = true ∧
    (remove_run mf_exact ["gone.com"] "exact" (some 10) none true [linkB]).deleted = [] ∧
    (remove_run mf_exact ["gone.com"] "exact" (some 10) none true [linkB]).exitCode = some 1 := by
  decide

/-- C1: the removal predicate of `remove` disagrees with the selection
predicate of `list_links`.  With `after = 10` and pattern `gone.com`,
`linkB` (timestamp 5, url `keep.com`) is not selected by `list_links` — the
confirmation list is `[linkA]` — yet `should_remove` is true for it, and the
rewritten index (`to_keep`) is empty: `remove` deleted both links from the
index although the filter engine selected only one. -/
theorem c1_remove_vs_select_divergence :
    should_remove mf_exact ["gone.com"] "exact" (some 10) none linkB = true ∧
    list_links_select mf_exact ["gone.com"] "exact" (some 10) none linkB = false ∧
    list_links_run mf_exact ["gone.com"] "exact" (some 10) none [linkA, linkB] = [linkA] ∧
    (remove_run mf_exact ["gone.com"] "exact" (some 10) none false [linkA, linkB]).written
      = some [] := by
  decide

/-- The archiving loop never writes the canonical index: its events are all
`archive_link` invocations. -/
theorem writes_run_loop (f : Link → ArchOutcome) (ls : List Link) :
    writes (run_loop f ls).1 = [] := by
  induction ls with
  | nil => rfl
  | cons l ls ih =>
    cases hfl : f l
    case ok =>
      rcases hr : run_loop f ls with ⟨es, r⟩
      rw [hr] at ih
      simp only [run_loop, hfl, hr, writes, List.filter_cons] at ih ⊢
      simpa [is_write] using ih
    case interrupt => simp [run_loop, hfl, writes, is_write]
    case err => simp [run_loop, hfl, writes, is_write]

/-- A loop that finishes produced exactly one `archive_link` event per link,
in order. -/
theorem run_loop_finished_events (f : Link → ArchOutcome) (ls : List Link)
    (h : (run_loop f ls).2 = LoopRes.finished) :
    (run_loop f ls).1 = ls.map Event.archive := by
  induction ls with
  | nil => rfl
  | cons l ls ih =>
    cases hfl : f l
    case ok =>
      rcases hr : run_loop f ls with ⟨es, r⟩
      rw [hr] at ih
      simp only [run_loop, hfl, hr] at h ⊢
      have ih' : es = List.map Event.archive ls := ih h
      rw [List.map_cons, ih']
    case interrupt => simp [run_loop, hfl] at h
    case err => simp [run_loop, hfl] at h

/-- Filtering writes distributes over trace concatenation. -/
theorem writes_append (tr tr' : List Event) :
    writes (tr ++ tr') = writes tr ++ writes tr' := by
  simp [writes, List.filter_append]

/-- C2 (counterexample): an `add` run and an `update` run interrupted by the
user exit via `SystemExit(0)` — the exit status is zero, not the non-zero
status the claim requires. -/
theorem c2_interrupt_exit_zero :
    (add_run [linkA] [] [] [] false false true f_int).2 = Outcome.exit 0 ∧
    (update_run [linkA] mf_exact [] "exact" none none (some "indexed") false false none
        gf_id f_int []).2 = Outcome.exit 0 := by
  decide

/-- C2 (amended): an interrupted `add`/`update` run exits with status 0
(zero) — which is still distinct from the failure path, where the exception
re-raises out of the run instead of exiting. -/
theorem c2_interrupt_vs_failure (index merged newLinks reloaded : List Link)
    (hasImport updateAll : Bool) (f : Link → ArchOutcome)
    (index2 reloaded2 : List Link) (mf : Matcher) (patterns : List String)
    (ftype : String) (after before : Option ℚ) (status : Option String)
    (onlyNew : Bool) (resume : Option ℚ)
    (gf : String → List Link → List (Option Link)) (f2 : Link → ArchOutcome) :
    ((run_loop f (add_selected index merged newLinks hasImport updateAll)).2
          = LoopRes.interrupted →
      (add_run index merged newLinks reloaded hasImport false updateAll f).2
          = Outcome.exit 0) ∧
    ((run_loop f (add_selected index merged newLinks hasImport updateAll)).2
          = LoopRes.errored →
      (add_run index merged newLinks reloaded hasImport false updateAll f).2
          = Outcome.raised PyErr.other) ∧
    ((run_loop f2 (update_pipeline_links index2 mf patterns ftype after before status
            onlyNew resume gf)).2 = LoopRes.interrupted →
      (update_run index2 mf patterns ftype after before status onlyNew false resume
            gf f2 reloaded2).2 = Outcome.exit 0) ∧
    ((run_loop f2 (update_pipeline_links index2 mf patterns ftype after before status
            onlyNew resume gf)).2 = LoopRes.errored →
      (update_run index2 mf patterns ftype after before status onlyNew false resume
            gf f2 reloaded2).2 = Outcome.raised PyErr.other) := by
  refine ⟨?_, ?_, ?_, ?_⟩
  · intro h
    rcases hr : run_loop f (add_selected index merged newLinks hasImport updateAll)
      with ⟨es, r⟩
    rw [hr] at h
    have hr2 : r = LoopRes.interrupted := h
    subst hr2
    simp [add_run, hr]
  · intro h
    rcases hr : run_loop f (add_selected index merged newLinks hasImport updateAll)
      with ⟨es, r⟩
    rw [hr] at h
    have hr2 : r = LoopRes.errored := h
    subst hr2
    simp [add_run, hr]
  · intro h
    cases hlf : list_folders gf (list_links_run mf patterns ftype after before index2)
        status with
    | error e =>
      have hp : update_pipeline_links index2 mf patterns ftype after before status
          onlyNew resume gf = [] := by
        simp [update_pipeline_links, hlf]
      rw [hp] at h
      simp [run_loop] at h
    | ok folders =>
      have hp : update_pipeline_links index2 mf patterns ftype after before status
          onlyNew resume gf
          = links_after_timestamp (if onlyNew then [] else folders.filterMap id) resume := by
        simp [update_pipeline_links, hlf]
      rw [hp] at h
      rcases hr : run_loop f2
          (links_after_timestamp (if onlyNew then [] else folders.filterMap id) resume)
        with ⟨es, r⟩
      rw [hr] at h
      have hr2 : r = LoopRes.interrupted := h
      subst hr2
      simp [update_run, hlf, hr]
  · intro h
    cases hlf : list_folders gf (list_links_run mf patterns ftype after before index2)
        status with
    | error e =>
      have hp : update_pipeline_links index2 mf patterns ftype after before status
          onlyNew resume gf = [] := by
        simp [update_pipeline_links, hlf]
      rw [hp] at h
      simp [run_loop] at h
    | ok folders =>
      have hp : update_pipeline_links index2 mf patterns ftype after before status
          onlyNew resume gf
          = links_after_timestamp (if onlyNew then [] else folders.filterMap id) resume := by
        simp [update_pipeline_links, hlf]
      rw [hp] at h
      rcases hr : run_loop f2
          (links_after_timestamp (if onlyNew then [] else folders.filterMap id) resume)
        with ⟨es, r⟩
      rw [hr] at h
      have hr2 : r = LoopRes.errored := h
      subst hr2
      simp [update_run, hlf, hr]

/-- Witness for C2 (amended) at concrete runs: interrupted runs exit 0,
failing runs re-raise. -/
theorem c2_interrupt_vs_failure_witness :
    (run_loop f_int (add_selected [linkA] [] [] false true)).2 = LoopRes.interrupted ∧
    (add_run [linkA] [] [] [] false false true f_int).2 = Outcome.exit 0 ∧
    (add_run [linkA] [] [] [] false false true f_err).2 = Outcome.raised PyErr.other ∧
    (update_run [linkA] mf_exact [] "exact" none none (some "indexed") false false none
        gf_id f_int []).2 = Outcome.exit 0 ∧
    (update_run [linkA] mf_exact [] "exact" none none (some "indexed") false false none
        gf_id f_err []).2 = Outcome.raised PyErr.other :=
  ⟨by decide,
   (c2_interrupt_vs_failure [linkA] [] [] [] false true f_int [linkA] [] mf_exact []
      "exact" none none (some "indexed") false none gf_id f_int).1 (by decide),
   (c2_interrupt_vs_failure [linkA] [] [] [] false true f_err [linkA] [] mf_exact []
      "exact" none none (some "indexed") false none gf_id f_err).2.1 (by decide),
   (c2_interrupt_vs_failure [linkA] [] [] [] false true f_int [linkA] [] mf_exact []
      "exact" none none (some "indexed") false none gf_id f_int).2.2.1 (by decide),
   (c2_interrupt_vs_failure [linkA] [] [] [] false true f_err [linkA] [] mf_exact []
      "exact" none none (some "indexed") false none gf_id f_err).2.2.2 (by decide)⟩

/-- Unrecognized statuses, with the `None` default among them. -/
def status_unrecognized : Option String → Bool
  | some s => !(recognized_statuses.contains s)
  | none => true

/-- C3 (amended): an `update` call whose `status` is not one of the ten
recognized folder states (the `None` default included) aborts with
`ValueError` before the archiving loop and before the `finished=True`
index write — but only after the initial `write_main_index` of the loaded
index, so exactly one index write precedes the error. -/
theorem c3_unknown_status (index : List Link) (mf : Matcher) (patterns : List String)
    (ftype : String) (after before : Option ℚ) (status : Option String)
    (onlyNew indexOnly : Bool) (resume : Option ℚ)
    (gf : String → List Link → List (Option Link)) (f : Link → ArchOutcome)
    (reloaded : List Link)
    (h : status_unrecognized status = true) :
    update_run index mf patterns ftype after before status onlyNew indexOnly resume
        gf f reloaded
      = ([Event.loadIndex, Event.writeIndex index false, Event.loadIndex],
         Outcome.raised PyErr.valueError) := by
  cases status with
  | none => simp [update_run, list_folders, update_preamble]
  | some s =>
    have hm : ¬ s ∈ recognized_statuses := by
      simpa [status_unrecognized] using h
    simp [update_run, list_folders, hm, update_preamble]

/-- Witness for C3 (amended) at a concrete run with `status = "bogus"`. -/
theorem c3_unknown_status_witness :
    status_unrecognized (some "bogus") = true ∧
    update_run [linkA] mf_exact [] "exact" none none (some "bogus") false false none
        gf_none f_ok []
      = ([Event.loadIndex, Event.writeIndex [linkA] false, Event.loadIndex],
         Outcome.raised PyErr.valueError) :=
  ⟨by decide,
   c3_unknown_status [linkA] mf_exact [] "exact" none none (some "bogus") false false
     none gf_none f_ok [] (by decide)⟩

/-- C3 (counterexample): on a concrete `update` run with unrecognized status
`"bogus"`, the error is raised — but a `write_main_index` call has already
happened, refuting "no write_main_index call happens before the error". -/
theorem c3_write_precedes_error :
    writes (update_run [linkA] mf_exact [] "exact" none none (some "bogus") false false
        none gf_none f_ok []).1 = [Event.writeIndex [linkA] false] ∧
    writes (update_run [linkA] mf_exact [] "exact" none none (some "bogus") false false
        none gf_none f_ok []).1 ≠ [] ∧
    (update_run [linkA] mf_exact [] "exact" none none (some "bogus") false false
        none gf_none f_ok []).2 = Outcome.raised PyErr.valueError := by
  decide

/-- C5: when the archiving loop of an `add` or `update` run is interrupted,
the only canonical index write in the whole trace is the pre-archiving one —
the `finished=True` post-batch write never happens. -/
theorem c5_interrupted_no_final_write (index merged newLinks reloaded : List Link)
    (hasImport updateAll : Bool) (f : Link → ArchOutcome)
    (index2 reloaded2 : List Link) (mf : Matcher) (patterns : List String)
    (ftype : String) (after before : Option ℚ) (status : Option String)
    (onlyNew : Bool) (resume : Option ℚ)
    (gf : String → List Link → List (Option Link)) (f2 : Link → ArchOutcome) :
    ((run_loop f (add_selected index merged newLinks hasImport updateAll)).2
          = LoopRes.interrupted →
      writes (add_run index merged newLinks reloaded hasImport false updateAll f).1
        = [Event.writeIndex (add_all_links index merged hasImport) false]) ∧
    ((run_loop f2 (update_pipeline_links index2 mf patterns ftype after before status
            onlyNew resume gf)).2 = LoopRes.interrupted →
      writes (update_run index2 mf patterns ftype after before status onlyNew false
            resume gf f2 reloaded2).1
        = [Event.writeIndex index2 false]) := by
  constructor
  · intro h
    rcases hr : run_loop f (add_selected index merged newLinks hasImport updateAll)
      with ⟨es, r⟩
    rw [hr] at h
    have hr2 : r = LoopRes.interrupted := h
    subst hr2
    have hw : writes es = [] := by
      have h' := writes_run_loop f (add_selected index merged newLinks hasImport updateAll)
      rw [hr] at h'
      exact h'
    have htr : (add_run index merged newLinks reloaded hasImport false updateAll f).1
        = [Event.loadIndex, Event.writeIndex (add_all_links index merged hasImport) false]
          ++ es := by
      simp [add_run, hr]
    rw [htr, writes_append, hw]
    rfl
  · intro h
    cases hlf : list_folders gf (list_links_run mf patterns ftype after before index2)
        status with
    | error e =>
      have hp : update_pipeline_links index2 mf patterns ftype after before status
          onlyNew resume gf = [] := by
        simp [update_pipeline_links, hlf]
      rw [hp] at h
      simp [run_loop] at h
    | ok folders =>
      have hp : update_pipeline_links index2 mf patterns ftype after before status
          onlyNew resume gf
          = links_after_timestamp (if onlyNew then [] else folders.filterMap id) resume := by
        simp [update_pipeline_links, hlf]
      rw [hp] at h
      rcases hr : run_loop f2
          (links_after_timestamp (if onlyNew then [] else folders.filterMap id) resume)
        with ⟨es, r⟩
      rw [hr] at h
      have hr2 : r = LoopRes.interrupted := h
      subst hr2
      have hw : writes es = [] := by
        have h' := writes_run_loop f2
          (links_after_timestamp (if onlyNew then [] else folders.filterMap id) resume)
        rw [hr] at h'
        exact h'
      have htr : (update_run index2 mf patterns ftype after before status onlyNew false
            resume gf f2 reloaded2).1 = update_preamble index2 ++ es := by
        simp [update_run, hlf, hr, update_preamble]
      rw [htr, writes_append, hw]
      rfl

/-- Witness for C5 at concrete interrupted runs. -/
theorem c5_interrupted_no_final_write_witness :
    (run_loop f_int (add_selected [linkA] [] [] false true)).2 = LoopRes.interrupted ∧
    writes (add_run [linkA] [] [] [] false false true f_int).1
      = [Event.writeIndex [linkA] false] ∧
    writes (update_run [linkA] mf_exact [] "exact" none none (some "indexed") false
        false none gf_id f_int []).1 = [Event.writeIndex [linkA] false] :=
  ⟨by decide,
   (c5_interrupted_no_final_write [linkA] [] [] [] false true f_int [linkA] [] mf_exact
      [] "exact" none none (some "indexed") false none gf_id f_int).1 (by decide),
   (c5_interrupted_no_final_write [linkA] [] [] [] false true f_int [linkA] [] mf_exact
      [] "exact" none none (some "indexed") false none gf_id f_int).2 (by decide)⟩

/-- C6: an `add` run that completes its full batch produces exactly this
trace — a pre-archiving write of the merged link set before any extractor
event, the archive events, then a re-read of the main index immediately
followed by the second, `finished=True`, write; in particular exactly two
canonical index writes occur. -/
theorem c6_add_two_writes (index merged newLinks reloaded : List Link)
    (hasImport updateAll : Bool) (f : Link → ArchOutcome)
    (h : (run_loop f (add_selected index merged newLinks hasImport updateAll)).2
          = LoopRes.finished) :
    (add_run index merged newLinks reloaded hasImport false updateAll f).1
      = [Event.loadIndex, Event.writeIndex (add_all_links index merged hasImport) false]
        ++ (add_selected index merged newLinks hasImport updateAll).map Event.archive
        ++ [Event.loadIndex, Event.writeIndex reloaded true] ∧
    writes (add_run index merged newLinks reloaded hasImport false updateAll f).1
      = [Event.writeIndex (add_all_links index merged hasImport) false,
         Event.writeIndex reloaded true] := by
  rcases hr : run_loop f (add_selected index merged newLinks hasImport updateAll)
    with ⟨es, r⟩
  rw [hr] at h
  have hr2 : r = LoopRes.finished := h
  subst hr2
  have he : es = (add_selected index merged newLinks hasImport updateAll).map Event.archive := by
    have h' := run_loop_finished_events f
      (add_selected index merged newLinks hasImport updateAll) (by rw [hr])
    rw [hr] at h'
    exact h'
  subst he
  constructor
  · simp [add_run, hr]
  · have hw : writes ((add_selected index merged newLinks hasImport updateAll).map
        Event.archive) = [] := by
      have h' := writes_run_loop f (add_selected index merged newLinks hasImport updateAll)
      rw [hr] at h'
      exact h'
    have htr : (add_run index merged newLinks reloaded hasImport false updateAll f).1
        = [Event.loadIndex, Event.writeIndex (add_all_links index merged hasImport) false]
          ++ ((add_selected index merged newLinks hasImport updateAll).map Event.archive
              ++ [Event.loadIndex, Event.writeIndex reloaded true]) := by
      simp [add_run, hr]
    rw [htr, writes_append, writes_append, hw]
    rfl

/-- Witness for C6 at a concrete completed run. -/
theorem c6_add_two_writes_witness :
    (run_loop f_ok (add_selected [linkA] [] [] false true)).2 = LoopRes.finished ∧
    ((add_run [linkA] [] [] [linkA] false false true f_ok).1
      = [Event.loadIndex, Event.writeIndex (add_all_links [linkA] [] false) false]
        ++ (add_selected [linkA] [] [] false true).map Event.archive
        ++ [Event.loadIndex, Event.writeIndex [linkA] true] ∧
     writes (add_run [linkA] [] [] [linkA] false false true f_ok).1
      = [Event.writeIndex (add_all_links [linkA] [] false) false,
         Event.writeIndex [linkA] true]) :=
  ⟨by decide, c6_add_two_writes [linkA] [] [] [linkA] false true f_ok (by decide)⟩

/-- C10: an `update` run with `only_new = true` hands the empty list to the
archiving pipeline — `update` never populates `new_links` — so no
`archive_link` event ever occurs, whatever the filters, status, resume
point or index contents. -/
theorem c10_only_new_empty (index : List Link) (mf : Matcher) (patterns : List String)
    (ftype : String) (after before : Option ℚ) (status : Option String)
    (indexOnly : Bool) (resume : Option ℚ)
    (gf : String → List Link → List (Option Link)) (f : Link → ArchOutcome)
    (reloaded : List Link) :
    update_pipeline_links index mf patterns ftype after before status true resume gf
      = [] ∧
    (update_run index mf patterns ftype after before status true indexOnly resume
        gf f reloaded).1.filter is_archive = [] := by
  have hlat : links_after_timestamp [] resume = [] := by
    cases resume <;> rfl
  constructor
  · unfold update_pipeline_links
    cases hlf : list_folders gf (list_links_run mf patterns ftype after before index)
        status <;> simp [hlat]
  · unfold update_run
    cases hlf : list_folders gf (list_links_run mf patterns ftype after before index)
        status with
    | error e => simp [update_preamble, is_archive]
    | ok folders =>
      cases indexOnly <;> simp [hlat, run_loop, update_preamble, is_archive]

/-- Membership after a dict insertion: the pair is the inserted one or was
already present. -/
theorem mem_dinsert {p : String × Link} {k : String} {v : Link} {m : Dict}
    (h : p ∈ dinsert k v m) : p = (k, v) ∨ p ∈ m := by
  induction m with
  | nil => simpa [dinsert] using h
  | cons q m ih =>
    by_cases hq : q.1 = k
    · simp only [dinsert, if_pos hq] at h
      rcases List.mem_cons.mp h with h | h
      · exact Or.inl h
      · exact Or.inr (List.mem_cons_of_mem _ h)
    · simp only [dinsert, if_neg hq] at h
      rcases List.mem_cons.mp h with h | h
      · exact Or.inr (h ▸ List.mem_cons_self _ _)
      · rcases ih h with h | h
        · exact Or.inl h
        · exact Or.inr (List.mem_cons_of_mem _ h)

/-- Membership after a dict update: the pair was already present or comes
from the added pairs. -/
theorem mem_dupdate {p : String × Link} {m adds : Dict}
    (h : p ∈ dupdate m adds) : p ∈ m ∨ p ∈ adds := by
  induction adds generalizing m with
  | nil => exact Or.inl h
  | cons q adds ih =>
    have h' : p ∈ dupdate (dinsert q.1 q.2 m) adds := h
    rcases ih h' with h'' | h''
    · rcases mem_dinsert h'' with h3 | h3
      · exact Or.inr (h3 ▸ List.mem_cons_self _ _)
      · exact Or.inl h3
    · exact Or.inr (List.mem_cons_of_mem _ h'')

/-- Inserting a different key leaves a lookup unchanged. -/
theorem dlookup_dinsert_ne {k k' : String} (v : Link) (m : Dict) (h : k' ≠ k) :
    dlookup k (dinsert k' v m) = dlookup k m := by
  induction m with
  | nil => simp [dinsert, dlookup, h]
  | cons q m ih =>
    by_cases hq : q.1 = k'
    · have hqk : q.1 ≠ k := by rw [hq]; exact h
      simp [dinsert, hq, dlookup, h, hqk]
    · simp [dinsert, hq, dlookup, ih]

/-- Updating with pairs whose keys all differ from `k` leaves the lookup of
`k` unchanged. -/
theorem dlookup_dupdate_fresh {k : String} {m adds : Dict}
    (h : ∀ p ∈ adds, p.1 ≠ k) :
    dlookup k (dupdate m adds) = dlookup k m := by
  induction adds generalizing m with
  | nil => rfl
  | cons q adds ih =>
    have h' : ∀ p ∈ adds, p.1 ≠ k := fun p hp => h p (List.mem_cons_of_mem _ hp)
    have step : dlookup k (dupdate (dinsert q.1 q.2 m) adds)
        = dlookup k (dinsert q.1 q.2 m) := ih h'
    calc dlookup k (dupdate m (q :: adds))
        = dlookup k (dinsert q.1 q.2 m) := step
      _ = dlookup k m := dlookup_dinsert_ne _ _ (h q (List.mem_cons_self _ _))

/-- Every pair of a dict comprehension comes from the source list and is
keyed by its link's url. -/
theorem mem_dict_of {p : String × Link} {ls : List Link} (h : p ∈ dict_of ls) :
    p.2 ∈ ls ∧ p.1 = p.2.url := by
  rcases mem_dupdate h with h | h
  · exact absurd h (List.not_mem_nil p)
  · rcases List.mem_map.mp h with ⟨l, hl, he⟩
    subst he
    exact ⟨hl, rfl⟩

/-- One collection stage of `init`: updating with links filtered to urls
absent from `m` preserves every lookup that succeeds in `m`. -/
theorem dlookup_stage {m : Dict} {src : List Link} {k : String} {v : Link}
    (h : dlookup k m = some v) :
    dlookup k (dupdate m (dict_of (src.filter (fun l => (dlookup l.url m).isNone))))
      = some v := by
  rw [dlookup_dupdate_fresh]
  · exact h
  · intro p hp hk
    rcases mem_dict_of hp with ⟨hmem, hurl⟩
    have hnone : (dlookup p.2.url m).isNone = true :=
      (List.mem_filter.mp hmem).2
    have h2 : dlookup p.2.url m = none := Option.isNone_iff_eq_none.mp hnone
    rw [← hurl, hk, h] at h2
    exact Option.noConfusion h2

/-- A url present in the existing main index keeps exactly its existing
record through all three later collection stages of `init`. -/
theorem existing_wins {ex json sql dd : List Link} {k : String} {v : Link}
    (h : dlookup k (dict_of ex) = some v) :
    dlookup k (collect_dict ex json sql dd) = some v :=
  dlookup_stage (dlookup_stage (dlookup_stage h))

/-- Keys after an insertion: unchanged if the key was present, else the key
is appended. -/
theorem dkeys_dinsert (k : String) (v : Link) (m : Dict) :
    dkeys (dinsert k v m) = if k ∈ dkeys m then dkeys m else dkeys m ++ [k] := by
  induction m with
  | nil => simp [dinsert, dkeys]
  | cons q m ih =>
    by_cases hq : q.1 = k
    · simp [dinsert, hq, dkeys]
    · have hqk : ¬ k = q.1 := fun hc => hq hc.symm
      simp only [dinsert, if_neg hq, dkeys, List.map_cons] at ih ⊢
      rw [ih]
      by_cases hk : k ∈ List.map Prod.fst m
      · simp [hk, hqk]
      · simp [hk, hqk]

/-- Insertion preserves distinctness of keys. -/
theorem nodup_dkeys_dinsert {m : Dict} (k : String) (v : Link)
    (h : (dkeys m).Nodup) : (dkeys (dinsert k v m)).Nodup := by
  rw [dkeys_dinsert]
  split_ifs with hk
  · exact h
  · simp [List.nodup_append, h, hk]

/-- Updating preserves distinctness of keys. -/
theorem nodup_dkeys_dupdate {m adds : Dict} (h : (dkeys m).Nodup) :
    (dkeys (dupdate m adds)).Nodup := by
  induction adds generalizing m with
  | nil => exact h
  | cons q adds ih => exact ih (nodup_dkeys_dinsert q.1 q.2 h)

/-- A dict comprehension has distinct keys. -/
theorem nodup_dkeys_dict_of (ls : List Link) : (dkeys (dict_of ls)).Nodup :=
  nodup_dkeys_dupdate List.nodup_nil

/-- Well-formedness of the `init` dict: every value is stored under its own
url. -/
def dwf (m : Dict) : Prop := ∀ p ∈ m, p.2.url = p.1

/-- Insertion of a link under its url preserves well-formedness. -/
theorem dwf_dinsert {m : Dict} {k : String} {v : Link} (h : dwf m)
    (hv : v.url = k) : dwf (dinsert k v m) := by
  intro p hp
  rcases mem_dinsert hp with h' | h'
  · rw [h']; exact hv
  · exact h p h'

/-- Updating with well-formed pairs preserves well-formedness. -/
theorem dwf_dupdate {m adds : Dict} (h : dwf m) (ha : dwf adds) :
    dwf (dupdate m adds) := by
  induction adds generalizing m with
  | nil => exact h
  | cons q adds ih =>
    exact ih (dwf_dinsert h (ha q (List.mem_cons_self _ _)))
      (fun p hp => ha p (List.mem_cons_of_mem _ hp))

/-- A dict comprehension is well-formed. -/
theorem dwf_dict_of (ls : List Link) : dwf (dict_of ls) :=
  fun p hp => (mem_dict_of hp).2.symm

/-- The collection dict of `init` is well-formed. -/
theorem dwf_collect (ex json sql dd : List Link) : dwf (collect_dict ex json sql dd) :=
  dwf_dupdate (dwf_dupdate (dwf_dupdate (dwf_dict_of ex) (dwf_dict_of _))
    (dwf_dict_of _)) (dwf_dict_of _)

/-- In a well-formed dict, the urls of the values are exactly the keys. -/
theorem map_url_dvalues : ∀ {m : Dict}, dwf m →
    (dvalues m).map Link.url = dkeys m := by
  intro m
  induction m with
  | nil => intro _; rfl
  | cons p m ih =>
    intro h
    have h1 := h p (List.mem_cons_self _ _)
    have h2 : dwf m := fun q hq => h q (List.mem_cons_of_mem _ hq)
    simp only [dvalues, dkeys, List.map_cons] at ih ⊢
    rw [h1, ih h2]

/-- The keys of the collection dict are distinct. -/
theorem nodup_dkeys_collect (ex json sql dd : List Link) :
    (dkeys (collect_dict ex json sql dd)).Nodup :=
  nodup_dkeys_dupdate (nodup_dkeys_dupdate (nodup_dkeys_dupdate
    (nodup_dkeys_dict_of ex)))

/-- Every link written by `init` comes from one of the four scanned
sources. -/
theorem collect_links_origin {ex json sql dd : List Link} {l : Link}
    (h : l ∈ collect_links ex json sql dd) :
    l ∈ ex ∨ l ∈ json ∨ l ∈ sql ∨ l ∈ dd := by
  rcases List.mem_map.mp h with ⟨p, hp, he⟩
  subst he
  rcases mem_dupdate hp with hp | hp
  · rcases mem_dupdate hp with hp | hp
    · rcases mem_dupdate hp with hp | hp
      · exact Or.inl (mem_dict_of hp).1
      · exact Or.inr (Or.inl (List.mem_filter.mp (mem_dict_of hp).1).1)
    · exact Or.inr (Or.inr (Or.inl (List.mem_filter.mp (mem_dict_of hp).1).1))
  · exact Or.inr (Or.inr (Or.inr (List.mem_filter.mp (mem_dict_of hp).1).1))

/-- One collection stage only contributes records whose url was absent from
the dict the stage started from: every pair after the stage was either
already present, or carries a fresh url and comes from the stage's source. -/
theorem mem_stage {m : Dict} {src : List Link} {p : String × Link}
    (h : p ∈ dupdate m (dict_of (src.filter (fun l => (dlookup l.url m).isNone)))) :
    p ∈ m ∨ (dlookup p.1 m = none ∧ p.2 ∈ src) := by
  rcases mem_dupdate h with h | h
  · exact Or.inl h
  · rcases mem_dict_of h with ⟨hmem, hurl⟩
    rcases List.mem_filter.mp hmem with ⟨hsrc, hnone⟩
    refine Or.inr ⟨?_, hsrc⟩
    rw [hurl]
    exact Option.isNone_iff_eq_none.mp hnone

/-- C7 (amended): during `init`'s link collection the earlier source always
wins — any url/record pair established by a stage (existing index, then
+JSON, then +SQL) is still looked up unchanged in the final dict, with
sources, title and tags untouched (nothing is unioned or filled from later
sources); conversely each stage contributes only records whose url was
absent from all earlier stages; every written link comes from one of the
four sources and the written set has unique urls. -/
theorem c7_collect_existing_wins (ex json sql dd : List Link) :
    (∀ k v, dlookup k (dict_of ex) = some v →
       dlookup k (collect_dict ex json sql dd) = some v) ∧
    (∀ k v, dlookup k (collect_stage1 ex json) = some v →
       dlookup k (collect_dict ex json sql dd) = some v) ∧
    (∀ k v, dlookup k (collect_stage2 ex json sql) = some v →
       dlookup k (collect_dict ex json sql dd) = some v) ∧
    (∀ p ∈ collect_stage1 ex json,
       p ∈ dict_of ex ∨ (dlookup p.1 (dict_of ex) = none ∧ p.2 ∈ json)) ∧
    (∀ p ∈ collect_stage2 ex json sql,
       p ∈ collect_stage1 ex json ∨
         (dlookup p.1 (collect_stage1 ex json) = none ∧ p.2 ∈ sql)) ∧
    (∀ p ∈ collect_dict ex json sql dd,
       p ∈ collect_stage2 ex json sql ∨
         (dlookup p.1 (collect_stage2 ex json sql) = none ∧ p.2 ∈ dd)) ∧
    ((collect_links ex json sql dd).map Link.url).Nodup ∧
    (∀ l ∈ collect_links ex json sql dd, l ∈ ex ∨ l ∈ json ∨ l ∈ sql ∨ l ∈ dd) := by
  refine ⟨fun _ _ h => existing_wins h,
          fun _ _ h => dlookup_stage (dlookup_stage h),
          fun _ _ h => dlookup_stage h,
          fun _ hp => mem_stage hp,
          fun _ hp => mem_stage hp,
          fun _ hp => mem_stage hp,
          ?_, fun _ h => collect_links_origin h⟩
  rw [collect_links, map_url_dvalues (dwf_collect ex json sql dd)]
  exact nodup_dkeys_collect ex json sql dd

/-- Witness for C7 (amended) at concrete inputs: `exA` (url `a.com`) in the
existing index survives an incoming JSON record `inA` for the same url; the
JSON record `jB` for the fresh url `b.com` survives the competing SQL record
`sB`; the SQL record `sB` survives the competing per-folder record `dB`; and
a per-folder record enters only with a url absent from every earlier
stage. -/
theorem c7_collect_existing_wins_witness :
    dlookup "a.com" (dict_of [exA]) = some exA ∧
    dlookup "a.com" (collect_dict [exA] [inA] [] []) = some exA ∧
    dlookup "b.com" (collect_stage1 [exA] [jB]) = some jB ∧
    dlookup "b.com" (collect_dict [exA] [jB] [sB] [dB]) = some jB ∧
    dlookup "b.com" (collect_stage2 [exA] [] [sB]) = some sB ∧
    dlookup "b.com" (collect_dict [exA] [] [sB] [dB]) = some sB ∧
    ("b.com", dB) ∈ collect_dict [exA] [] [] [dB] ∧
    (("b.com", dB) ∈ collect_stage2 [exA] [] [] ∨
      (dlookup "b.com" (collect_stage2 [exA] [] []) = none ∧ dB ∈ [dB])) ∧
    exA ∈ collect_links [exA] [inA] [] [] ∧
    (exA ∈ [exA] ∨ exA ∈ [inA] ∨ exA ∈ ([] : List Link) ∨ exA ∈ ([] : List Link)) :=
  ⟨by decide,
   (c7_collect_existing_wins [exA] [inA] [] []).1 "a.com" exA (by decide),
   by decide,
   (c7_collect_existing_wins [exA] [jB] [sB] [dB]).2.1 "b.com" jB (by decide),
   by decide,
   (c7_collect_existing_wins [exA] [] [sB] [dB]).2.2.1 "b.com" sB (by decide),
   by decide,
   (c7_collect_existing_wins [exA] [] [] [dB]).2.2.2.2.2.1 ("b.com", dB) (by decide),
   by decide,
   (c7_collect_existing_wins [exA] [inA] [] []).2.2.2.2.2.2.2 exA (by decide)⟩

/-- C7 (counterexample): existing record `exA` (sources `["s1"]`, no title)
and incoming JSON record `inA` for the same url (sources `["s2"]`, title
`"T"`).  The collected set is exactly `[exA]`: the sources were not unioned
to `["s1", "s2"]` and the empty title was not filled from the incoming
record — the incoming record is discarded wholesale. -/
theorem c7_no_union_no_fill :
    collect_links [exA] [inA] [] [] = [exA] ∧
    inA.sources = ["s2"] ∧ inA.title = some "T" ∧
    exA.sources = ["s1"] ∧ exA.title = none := by
  decide

end ArchiveBox
